import Mathlib

set_option linter.unusedVariables false

/-!
Shallow embedding of the heuristic multi-language source-code indexer of this
repository, translated from
`context_manager/generate_context_map_step1.py`,
`context_manager/generate_context_map_step2.py` and
`context_manager/old/call_graph.py`.
Python sets that the code iterates are modelled as lists (one enumeration of
the set); machine integers do not occur (all counts are small naturals, the
brace balance is a Python `int`, modelled as `Int`).
-/

/-- Python substring containment `pat in hay` (`str.__contains__`). -/
def strContainsSub (hay pat : String) : Bool :=
  hay.toList.tails.any (fun t => pat.toList.isPrefixOf t)

/-- Python `os.path.basename` (the tool runs on Windows paths, where both
`/` and `\` separate components): the part after the last separator. -/
def basename (s : String) : String :=
  String.mk (s.toList.foldl
    (fun acc c => if c = '/' ∨ c = '\\' then [] else acc ++ [c]) [])

/-- HIDDEN_CALLS of `generate_context_map_step1.py` (lines 69-82): standard
library constructors and enum variants filtered out of the call graph. -/
def HIDDEN_CALLS : List String :=
  ["Vec::new", "Vec::with_capacity", "HashMap::new", "HashSet::new",
   "String::new", "String::from", "VecDeque::new", "Box::new",
   "Mutex::new", "Arc::new", "Rc::new",
   "SeekFrom::Start", "SeekFrom::End",
   "CellValue::Boolean", "CellValue::Number", "CellValue::Text",
   "EvalResult::Array", "EvalResult::Boolean", "EvalResult::Number", "EvalResult::Text",
   "Expression::Literal", "Value::Boolean", "Value::Number", "Value::String",
   "Token::Boolean", "Token::Number", "Token::String", "Token::Identifier", "Token::Illegal",
   "ParserExpr::Literal", "ParserValue::Boolean", "ParserValue::Number", "ParserValue::String",
   "Color::new", "Color::black", "Color::white", "Color::with_alpha"]

/-- IGNORED_IMPORTS of `generate_context_map_step1.py` (lines 207-214),
as the function `IGNORED_IMPORTS.get(extension, [])`. -/
def ignoredImports (ext : String) : List String :=
  if ext = ".rs" then
    ["std::", "serde::", "tauri::", "super::", "crate::", "println!", "format!",
     "vec!", "Ok", "Err", "Some", "None", "Box::", "Rc::", "Arc::"]
  else if ext = ".ts" then
    ["react", "fs", "path", "console.", "JSON.", "Math.", "Array.", "Promise.", "Object."]
  else if ext = ".tsx" then
    ["react", "console.", "JSON.", "Math.", "Array."]
  else if ext = ".js" then
    ["react", "fs", "path", "console."]
  else if ext = ".jsx" then
    ["react", "console."]
  else if ext = ".py" then
    ["os.", "sys.", "re.", "json.", "subprocess.", "print(", "len(", "str(",
     "int(", "float(", "list(", "dict(", "set("]
  else []

/-- Function `is_call_ignored(call_str, extension)` of
`generate_context_map_step1.py` (lines 542-549). -/
def is_call_ignored (call_str ext : String) : Bool :=
  if call_str ∈ HIDDEN_CALLS then true
  else (ignoredImports ext).any (fun ignore => strContainsSub call_str ignore)

/-- CodeEntity of the two generator scripts, restricted to the fields the
resolver and the span invariants consume. -/
structure CodeEntity where
  name : String
  kind : String := "fn"
  signature : String := ""
  line_start : Nat := 0
  line_end : Nat := 0
  file_path : String := ""
  rel_path : String := ""
  body : String := ""
deriving DecidableEq, Repr

/-- Symbol table of `resolve_graph` / `resolve_dependencies`: the defaultdict
built by appending each entity (in scan order) under its name, read back at
one name.  Appending in order is the same as filtering the flat entity list. -/
def symTable (ents : List CodeEntity) (name : String) : List CodeEntity :=
  ents.filter (fun e => e.name == name)

/-- Ambiguous candidate list of `resolve_graph` (step 1, lines 583-585) and
`resolve_dependencies` (step 2, lines 1293-1295): basenames of the first three
candidate files, plus an overflow marker when more than three exist. -/
def ambiguousSources (candidates : List CodeEntity) : List String :=
  (candidates.take 3).map (fun c => basename c.file_path) ++
    (if 3 < candidates.length then ["..."] else [])

/-- Python `sep.join(parts)`. -/
def joinSep (sep : String) : List String → String
  | [] => ""
  | [x] => x
  | x :: xs => x ++ sep ++ joinSep sep xs

/-- Resolution of one raw call by `resolve_graph` of
`generate_context_map_step1.py` (lines 560-586); `none` means the call is
dropped (ignored call, hidden qualified call, or no candidate). -/
def resolveCallStep1 (ents : List CodeEntity) (callerPath ext call : String) :
    Option String :=
  if is_call_ignored call ext then none
  else if strContainsSub call "::" then
    if call ∈ HIDDEN_CALLS then none else some call
  else
    match symTable ents call with
    | [] => none
    | [target] =>
      if target.file_path = callerPath then
        some ("self :: " ++ target.name)
      else
        some (target.rel_path ++ " :: " ++ target.name)
    | candidates =>
      if candidates.filter (fun c => c.file_path == callerPath) ≠ [] then
        some ("self :: " ++ call)
      else
        some (call ++ " [? " ++ joinSep ", " (ambiguousSources candidates) ++ "]")

/-- Resolved-call list of one entity: `resolve_graph` appends, for each raw
call in iteration order, the resolution string (or nothing).  The Python
`ent.raw_calls` set is modelled by one enumeration `rawCalls` of it. -/
def resolvedCallsOf (ents : List CodeEntity) (callerPath ext : String)
    (rawCalls : List String) : List String :=
  rawCalls.filterMap (resolveCallStep1 ents callerPath ext)

/-- Python `line.split(pat)[0]`: the text before the first occurrence of
`pat`, or the whole line when `pat` does not occur. -/
def splitBeforeAux (pat : List Char) : List Char → List Char
  | [] => []
  | c :: rest => if pat.isPrefixOf (c :: rest) then [] else c :: splitBeforeAux pat rest

/-- String wrapper for `splitBeforeAux`. -/
def splitBefore (s pat : String) : String :=
  String.mk (splitBeforeAux pat.toList s.toList)

/-- Count of a character in a string (Python `str.count` for 1-char needles). -/
def charCount (s : String) (c : Char) : Nat := s.toList.count c

/-- Loop of `find_closing_brace` of step 1 (lines 311-322): per line, text
after a `//` or `#` is dropped, braces are counted (string literals are NOT
tracked), the scan stops at the first line where, after having seen an
opening brace, the balance is `≤ 0`. -/
def findClosingBraceStep1Aux (openC closeC : Char) :
    List String → Nat → Int → Bool → Option Nat
  | [], _, _, _ => none
  | l :: ls, idx, balance, started =>
    let l' := splitBefore (splitBefore l "//") "#"
    let balance' := balance + (charCount l' openC : Int) - (charCount l' closeC : Int)
    let started' := started || l'.toList.contains openC
    if started' = true ∧ balance' ≤ 0 then some idx
    else findClosingBraceStep1Aux openC closeC ls (idx + 1) balance' started'

/-- Function `find_closing_brace(lines, start_index)` of
`generate_context_map_step1.py` (lines 308-323).  When no closing brace is
found it returns `len(lines)` — one past the last valid line index. -/
def findClosingBraceStep1 (lines : List String) (start : Nat)
    (openC : Char := '\x7b') (closeC : Char := '\x7d') : Nat :=
  match findClosingBraceStep1Aux openC closeC (lines.drop start) start 0 false with
  | some i => i
  | none => lines.length

/-- Scanner state shared by the step-2 and old call-graph brace delimiters:
brace balance, whether a block has started, and open string-literal state
(which persists across lines in both implementations). -/
structure BraceScanState where
  balance : Int := 0
  started : Bool := false
  inString : Bool := false
  stringChar : Option Char := none
deriving DecidableEq, Repr

/-- Character loop of `find_closing_brace` of step 2 (lines 358-381): a
character right after a backslash is skipped outright; quotes toggle string
state; outside strings `//` ends the line and braces update the balance.
`prev` is the previously seen character (none at the start of a line). -/
def scanCharsStep2 (openC closeC : Char) :
    BraceScanState → Option Char → List Char → BraceScanState
  | st, _, [] => st
  | st, prev, c :: rest =>
    if prev = some '\\' then scanCharsStep2 openC closeC st (some c) rest
    else if (c = '"' ∨ c = '\'' ∨ c = '\x60') ∧ st.inString = false then
      scanCharsStep2 openC closeC
        { st with inString := true, stringChar := some c } (some c) rest
    else if some c = st.stringChar ∧ st.inString = true then
      scanCharsStep2 openC closeC
        { st with inString := false, stringChar := none } (some c) rest
    else if st.inString = false then
      if c = '/' ∧ rest.head? = some '/' then st
      else if c = openC then
        scanCharsStep2 openC closeC
          { st with balance := st.balance + 1, started := true } (some c) rest
      else if c = closeC then
        scanCharsStep2 openC closeC
          { st with balance := st.balance - 1 } (some c) rest
      else scanCharsStep2 openC closeC st (some c) rest
    else scanCharsStep2 openC closeC st (some c) rest

/-- Line loop of step 2's `find_closing_brace`: after each scanned line the
block ends when it has started and the balance is `≤ 0`. -/
def findClosingBraceStep2Aux (openC closeC : Char) :
    List String → Nat → BraceScanState → Option Nat
  | [], _, _ => none
  | l :: ls, idx, st =>
    let st' := scanCharsStep2 openC closeC st none l.toList
    if st'.started = true ∧ st'.balance ≤ 0 then some idx
    else findClosingBraceStep2Aux openC closeC ls (idx + 1) st'

/-- Function `find_closing_brace(lines, start_index)` of
`generate_context_map_step2.py` (lines 347-386).  When no closing brace is
found it returns `len(lines) - 1`, the last line index (Python would give
-1 on an empty list; the callers always pass a valid line index). -/
def findClosingBraceStep2 (lines : List String) (start : Nat)
    (openC : Char := '\x7b') (closeC : Char := '\x7d') : Nat :=
  match findClosingBraceStep2Aux openC closeC (lines.drop start) start {} with
  | some i => i
  | none => lines.length - 1

/-- Character loop of `find_matching_brace` of `old/call_graph.py` (lines
223-246): a closing quote counts only when preceded by an even number of
backslashes (`bsRun` is the current run of backslashes just before `c`). -/
def scanCharsOld (openC closeC : Char) :
    BraceScanState → Nat → List Char → BraceScanState
  | st, _, [] => st
  | st, bsRun, c :: rest =>
    let bsRun' := if c = '\\' then bsRun + 1 else 0
    if st.inString = false ∧ (c = '"' ∨ c = '\'' ∨ c = '\x60') then
      scanCharsOld openC closeC
        { st with inString := true, stringChar := some c } bsRun' rest
    else if st.inString = true ∧ some c = st.stringChar then
      if bsRun % 2 = 0 then
        scanCharsOld openC closeC
          { st with inString := false, stringChar := none } bsRun' rest
      else scanCharsOld openC closeC st bsRun' rest
    else if st.inString = false then
      if c = '/' ∧ rest.head? = some '/' then st
      else if c = openC then
        scanCharsOld openC closeC
          { st with balance := st.balance + 1, started := true } bsRun' rest
      else if c = closeC then
        scanCharsOld openC closeC
          { st with balance := st.balance - 1 } bsRun' rest
      else scanCharsOld openC closeC st bsRun' rest
    else scanCharsOld openC closeC st bsRun' rest

/-- Line loop of `find_matching_brace`: the block ends when it has started
and the balance is exactly 0. -/
def findMatchingBraceAux (openC closeC : Char) :
    List String → Nat → BraceScanState → Option Nat
  | [], _, _ => none
  | l :: ls, idx, st =>
    let st' := scanCharsOld openC closeC st 0 l.toList
    if st'.started = true ∧ st'.balance = 0 then some idx
    else findMatchingBraceAux openC closeC ls (idx + 1) st'

/-- Function `find_matching_brace(lines, start_line)` of
`old/call_graph.py` (lines 213-251); returns `len(lines) - 1` when no
closing brace is found. -/
def findMatchingBrace (lines : List String) (start : Nat)
    (openC : Char := '\x7b') (closeC : Char := '\x7d') : Nat :=
  match findMatchingBraceAux openC closeC (lines.drop start) start {} with
  | some i => i
  | none => lines.length - 1

/-- Python `str.isspace` for the characters relevant to source lines. -/
def pyIsSpace (c : Char) : Bool :=
  c = ' ' ∨ c = '\t' ∨ c = '\n' ∨ c = '\r' ∨ c = '\x0b' ∨ c = '\x0c'

/-- Python `len(line) - len(line.lstrip())`: width of the leading whitespace. -/
def indentOf (l : String) : Nat := (l.toList.takeWhile pyIsSpace).length

/-- Python `not line.strip()`: the line is empty or all-whitespace. -/
def isBlankLine (l : String) : Bool := l.toList.all pyIsSpace

/-- Python `line.strip().startswith('#')`: comment-only line. -/
def isCommentLine (l : String) : Bool :=
  match l.toList.dropWhile pyIsSpace with
  | [] => false
  | c :: _ => c = '#'

/-- Inner loop of `parse_python` of step 1 (lines 523-533): starting after
the definition line, blank lines are skipped, and the first line whose
indentation is `≤` the definition's indentation (comment or not) stops the
block; its index becomes `ent.line_end`. -/
def pyScan (curInd : Nat) : List String → Nat → Option Nat
  | [], _ => none
  | l :: ls, j =>
    if isBlankLine l then pyScan curInd ls (j + 1)
    else if indentOf l ≤ curInd then some j
    else pyScan curInd ls (j + 1)

/-- Value `parse_python` assigns to `ent.line_end` for a definition found at
0-based line index `i`: the 0-based index of the terminating line (so the
block body is `lines[i:line_end]`), or `len(lines)` when nothing dedents. -/
def parsePythonBlockEnd (lines : List String) (i : Nat) : Nat :=
  match pyScan (indentOf (lines.getD i "")) (lines.drop (i + 1)) (i + 1) with
  | some j => j
  | none => lines.length

/-- Modelled from the spec (§4.1 indent rule, and the C5 claim text): same
as `parsePythonBlockEnd` except that comment-only lines, like blank lines,
never terminate the block. -/
def specPyBlockEnd (lines : List String) (i : Nat) : Nat :=
  match (lines.drop (i + 1)).findIdx? (fun l =>
      !isBlankLine l && !isCommentLine l &&
        decide (indentOf l ≤ indentOf (lines.getD i ""))) with
  | some k => i + 1 + k
  | none => lines.length

/-- Loop of `find_python_block_end` of `old/call_graph.py` (lines 262-281):
blank and comment lines are skipped; the first real line fixes the body
indentation, and the block ends just before the first real line indented
less than the body (`len(lines) - 1` if none). -/
def oldPyGo (total startLine baseIndent : Nat) :
    Option Nat → List String → Nat → Nat
  | _, [], _ => total - 1
  | bodyInd, l :: ls, i =>
    if isBlankLine l ∨ isCommentLine l then
      oldPyGo total startLine baseIndent bodyInd ls (i + 1)
    else
      match bodyInd with
      | none =>
        if baseIndent < indentOf l then
          oldPyGo total startLine baseIndent (some (indentOf l)) ls (i + 1)
        else startLine
      | some b =>
        if indentOf l < b then i - 1
        else oldPyGo total startLine baseIndent bodyInd ls (i + 1)

/-- Function `find_python_block_end(lines, start_line)` of
`old/call_graph.py` (lines 254-281): 0-based inclusive end of the block. -/
def findPythonBlockEnd (lines : List String) (start : Nat) : Nat :=
  if lines.length ≤ start then start
  else
    oldPyGo lines.length start (indentOf (lines.getD start ""))
      none (lines.drop (start + 1)) (start + 1)

/-- Function-entity construction of `TypeScriptParser._create_function_entity`
(step 2, lines 606-645), restricted to the name/span/body fields: the body is
exactly `"\n".join(lines[line_idx:end_line + 1])`. -/
def createFunctionEntityStep2 (lines : List String) (lineIdx : Nat)
    (name sig filePath relPath : String) : CodeEntity :=
  let endLine := findClosingBraceStep2 lines lineIdx
  { name := name
    kind := "fn"
    signature := sig
    line_start := lineIdx + 1
    line_end := endLine + 1
    file_path := filePath
    rel_path := relPath
    body := joinSep "\n" ((lines.drop lineIdx).take (endLine + 1 - lineIdx)) }

/-- Function-entity construction of `parse_rust` of step 1 (lines 408-430):
span `[i + 1, end_line + 1]` (1-based); the body scanned for calls is
`"\n".join(lines[i:end_line])`, which omits the closing-brace line. -/
def parseRustFnEntity (lines : List String) (i : Nat)
    (name sig filePath relPath : String) : CodeEntity :=
  let endLine := findClosingBraceStep1 lines i
  { name := name
    kind := "fn"
    signature := sig
    line_start := i + 1
    line_end := endLine + 1
    file_path := filePath
    rel_path := relPath
    body := joinSep "\n" ((lines.drop i).take (endLine - i)) }

/-- Source lines spanned by the 1-based inclusive interval
`[line_start, line_end]` of an entity. -/
def spanLines (lines : List String) (e : CodeEntity) : List String :=
  (lines.drop (e.line_start - 1)).take (e.line_end + 1 - e.line_start)

/-- STANDARD_REACT_HOOKS of `generate_context_map_step2.py` (lines 54-59). -/
def STANDARD_REACT_HOOKS : List String :=
  ["useState", "useEffect", "useCallback", "useMemo", "useRef",
   "useContext", "useReducer", "useLayoutEffect", "useImperativeHandle",
   "useDebugValue", "useDeferredValue", "useTransition", "useId",
   "useSyncExternalStore", "useInsertionEffect"]

/-- First pass of `_analyze_hooks_used` (step 2, lines 959-964): every match
of the destructuring-assignment hook pattern is appended with NO duplicate
check (only the entity's own name is excluded).  `matches1` is the list of
`re.finditer` group-1 results in body order. -/
def hooksUsedPass1 (selfName : String) (matches1 : List String) : List String :=
  matches1.filter (fun h => h ≠ selfName)

/-- Second pass of `_analyze_hooks_used` (lines 966-970): direct hook-call
matches are appended only when not already present. -/
def hooksUsedPass2 (selfName : String) (acc matches2 : List String) : List String :=
  matches2.foldl
    (fun acc h => if h ≠ selfName ∧ h ∉ acc then acc ++ [h] else acc) acc

/-- Full `hooks_used` list produced by `_analyze_hooks_used` from the two
match lists. -/
def hooksUsedOf (selfName : String) (matches1 matches2 : List String) : List String :=
  hooksUsedPass2 selfName (hooksUsedPass1 selfName matches1) matches2

/-- Trigger accumulation of `_analyze_data_flow` (step 2, lines 976-981):
each `dispatch(Action(` match appends `"dispatch(Action)"` unless already
present, so the trigger list is duplicate-free. -/
def buildTriggers (actionNames : List String) : List String :=
  actionNames.foldl
    (fun acc a =>
      let t := "dispatch(" ++ a ++ ")"
      if t ∈ acc then acc else acc ++ [t]) []

/-- Integration-layer classification of `_analyze_data_flow` (step 2, lines
983-988): the custom-hook count is the length of the FILTERED `hooks_used`
list — occurrences, not distinct names. -/
def isIntegrationLayer (hooks_used triggers : List String) : Bool :=
  let customHooksCount :=
    (hooks_used.filter (fun h => h ∉ STANDARD_REACT_HOOKS)).length
  if 2 ≤ customHooksCount ∧ triggers ≠ [] then true
  else if 1 ≤ customHooksCount ∧ 2 ≤ triggers.length then true
  else false

/-- Python `"  " * indent`: 2·indent spaces. -/
def indentPrefix (indent : Nat) : String :=
  String.mk (List.replicate (2 * indent) ' ')

/-- Function `render_hook_tree(hook_name, indent, visited)` of
`generate_hook_composition` (step 1, lines 806-837).  `hooks` models the
`hooks` dict as an association list from hook name to its
`hook_dependencies`; `visited` models the visited set.  The Python function
recurses with `visited | {hook_name}` and only descends into dependencies
that are known hooks and not yet visited.  The extra `fuel` argument makes
the recursion structural; the fuel-stabilization theorem below shows any
fuel larger than the number of unvisited hooks gives the same result, i.e.
the Python recursion terminates. -/
def renderHookTree (hooks : List (String × List String)) :
    Nat → String → Nat → List String → List String
  | 0, _, _, _ => []
  | fuel + 1, hookName, indent, visited =>
    if hookName ∈ visited then
      [indentPrefix indent ++ "  (circular: " ++ hookName ++ ")"]
    else
      match hooks.lookup hookName with
      | none => []
      | some deps =>
        let visited' := hookName :: visited
        let depStr :=
          if deps ≠ [] then " -> " ++ joinSep ", " deps else ""
        (indentPrefix indent ++ hookName ++ depStr) ::
          (deps.filter
            (fun d => (hooks.lookup d).isSome && !(visited'.contains d))).flatMap
            (fun d => renderHookTree hooks fuel d (indent + 1) visited')

/-- Scanner state of step 2's `find_closing_brace` after processing a list
of whole lines (each line starts with no previous character). -/
def step2AfterLines (openC closeC : Char) (st : BraceScanState)
    (ls : List String) : BraceScanState :=
  ls.foldl (fun s l => scanCharsStep2 openC closeC s none l.toList) st

/-- Scanner state of `find_matching_brace` after processing a list of whole
lines (the backslash run resets to 0 at each line start). -/
def oldAfterLines (openC closeC : Char) (st : BraceScanState)
    (ls : List String) : BraceScanState :=
  ls.foldl (fun s l => scanCharsOld openC closeC s 0 l.toList) st

/-- Number of hook names (association-list keys) not yet visited: the
decreasing measure of `render_hook_tree`'s recursion. -/
def hookMeasure (hooks : List (String × List String)) (visited : List String) : Nat :=
  ((hooks.map Prod.fst).filter (fun k => !(visited.contains k))).length

/-- Strings with no opening parenthesis (every hook name extracted by the
`use[A-Z][a-zA-Z0-9]*` regexes is such a string). -/
def parenFree (s : String) : Prop := ∀ c ∈ s.toList, c ≠ '('

/-- Hook tables whose names and dependency names are all parenthesis-free. -/
def parenFreeTable (hooks : List (String × List String)) : Prop :=
  ∀ p ∈ hooks, parenFree p.1 ∧ ∀ d ∈ p.2, parenFree d

instance : DecidablePred parenFree := fun s =>
  inferInstanceAs (Decidable (∀ c ∈ s.toList, c ≠ '('))

instance : DecidablePred parenFreeTable := fun hooks =>
  inferInstanceAs (Decidable (∀ p ∈ hooks, parenFree p.1 ∧ ∀ d ∈ p.2, parenFree d))

/-- Fixture: two entities with distinct names in two distinct files. -/
def fixtureEnts2 : List CodeEntity :=
  [{ name := "alpha", file_path := "C:/p/a.rs", rel_path := "src/a.rs" },
   { name := "beta", file_path := "C:/p/b.rs", rel_path := "src/b.rs" }]

/-- Fixture: four same-named entities in four distinct files. -/
def fixtureEnts4 : List CodeEntity :=
  [{ name := "helper", file_path := "C:/p/a.rs", rel_path := "src/a.rs" },
   { name := "helper", file_path := "C:/p/b.rs", rel_path := "src/b.rs" },
   { name := "helper", file_path := "C:/p/c.rs", rel_path := "src/c.rs" },
   { name := "helper", file_path := "C:/p/d.rs", rel_path := "src/d.rs" }]

theorem strContainsSub_iff (hay pat : String) :
    strContainsSub hay pat = true ↔ pat.toList <:+: hay.toList := by
  simp only [strContainsSub, List.any_eq_true, List.mem_tails,
    List.isPrefixOf_iff_prefix, List.infix_iff_prefix_suffix]
  exact ⟨fun ⟨t, h1, h2⟩ => ⟨t, h2, h1⟩, fun ⟨t, h1, h2⟩ => ⟨t, h2, h1⟩⟩

theorem mem_symTable {ents : List CodeEntity} {call : String} {e : CodeEntity}
    (h : e ∈ symTable ents call) : e.name = call := by
  simp only [symTable, List.mem_filter, beq_iff_eq] at h
  exact h.2

/-- C1: when the symbol table holds exactly one candidate for a bare call
name, `resolve_graph` appends `self :: name` if the candidate lives in the
caller's file and `<relative path> :: name` otherwise; when it holds several
candidates and at least one lives in the caller's file, it appends
`self :: name` (same-file preference). -/
theorem resolve_graph_unique_and_same_file_preference
    (ents : List CodeEntity) (callerPath ext call : String) (target : CodeEntity)
    (hIgn : is_call_ignored call ext = false)
    (hQual : strContainsSub call "::" = false) :
    (symTable ents call = [target] →
      resolveCallStep1 ents callerPath ext call =
        some (if target.file_path = callerPath then "self :: " ++ call
              else target.rel_path ++ " :: " ++ call)) ∧
    (2 ≤ (symTable ents call).length →
      (∃ c ∈ symTable ents call, c.file_path = callerPath) →
      resolveCallStep1 ents callerPath ext call = some ("self :: " ++ call)) := by
  constructor
  · intro hsym
    have hname : target.name = call :=
      mem_symTable (hsym ▸ List.mem_singleton_self target)
    by_cases hfp : target.file_path = callerPath
    · simp [resolveCallStep1, hIgn, hQual, hsym, hfp, hname]
    · simp [resolveCallStep1, hIgn, hQual, hsym, hfp, hname]
  · intro hlen hex
    obtain ⟨c, hc, hcp⟩ := hex
    rcases hst : symTable ents call with _ | ⟨a, _ | ⟨b, rest⟩⟩
    · rw [hst] at hlen; simp at hlen
    · rw [hst] at hlen; simp at hlen
    · have hfilter :
          (a :: b :: rest).filter (fun x => x.file_path == callerPath) ≠ [] := by
        intro hempty
        rw [hst] at hc
        have hmem : c ∈ (a :: b :: rest).filter (fun x => x.file_path == callerPath) :=
          List.mem_filter.mpr ⟨hc, by simp [hcp]⟩
        simp [hempty] at hmem
      simp [resolveCallStep1, hIgn, hQual, hst, hfilter]

/-- Witness for C1: a same-file unique candidate, a cross-file unique
candidate, and a two-candidate case with a same-file tie-break. -/
theorem resolve_graph_unique_and_same_file_preference_witness :
    resolveCallStep1 [{ name := "parse", file_path := "C:/p/load.rs", rel_path := "src/load.rs" }]
      "C:/p/load.rs" ".rs" "parse" = some ("self :: parse") ∧
    resolveCallStep1 [{ name := "parse", file_path := "C:/p/load.rs", rel_path := "src/load.rs" }]
      "C:/p/other.rs" ".rs" "parse" = some ("src/load.rs :: parse") ∧
    resolveCallStep1 [{ name := "helper", file_path := "C:/p/a.rs", rel_path := "src/a.rs" },
                      { name := "helper", file_path := "C:/p/b.rs", rel_path := "src/b.rs" }]
      "C:/p/a.rs" ".rs" "helper" = some ("self :: helper") := by
  refine ⟨?_, ?_, ?_⟩
  · have h := (resolve_graph_unique_and_same_file_preference
      [{ name := "parse", file_path := "C:/p/load.rs", rel_path := "src/load.rs" }]
      "C:/p/load.rs" ".rs" "parse"
      { name := "parse", file_path := "C:/p/load.rs", rel_path := "src/load.rs" }
      (by decide) (by decide)).1 (by decide)
    rw [if_pos rfl] at h
    exact h
  · have h := (resolve_graph_unique_and_same_file_preference
      [{ name := "parse", file_path := "C:/p/load.rs", rel_path := "src/load.rs" }]
      "C:/p/other.rs" ".rs" "parse"
      { name := "parse", file_path := "C:/p/load.rs", rel_path := "src/load.rs" }
      (by decide) (by decide)).1 (by decide)
    rw [if_neg (by decide)] at h
    exact h
  · exact (resolve_graph_unique_and_same_file_preference
      [{ name := "helper", file_path := "C:/p/a.rs", rel_path := "src/a.rs" },
       { name := "helper", file_path := "C:/p/b.rs", rel_path := "src/b.rs" }]
      "C:/p/a.rs" ".rs" "helper"
      { name := "helper", file_path := "C:/p/a.rs", rel_path := "src/a.rs" }
      (by decide) (by decide)).2 (by decide)
      ⟨{ name := "helper", file_path := "C:/p/a.rs", rel_path := "src/a.rs" },
       by decide, rfl⟩

/-- C2: a raw call with several candidates and none in the caller's file is
emitted as the ambiguous marker; the explicit candidate-source list holds at
most 3 basenames, the overflow marker `...` is appended exactly when more
than 3 candidates exist, and with at most 3 candidates every candidate
basename is listed with no overflow marker appended. -/
theorem resolve_graph_ambiguous_bound
    (ents : List CodeEntity) (callerPath ext call : String)
    (hIgn : is_call_ignored call ext = false)
    (hQual : strContainsSub call "::" = false)
    (hlen : 2 ≤ (symTable ents call).length)
    (hnosame : ∀ c ∈ symTable ents call, c.file_path ≠ callerPath) :
    resolveCallStep1 ents callerPath ext call =
      some (call ++ " [? " ++ joinSep ", " (ambiguousSources (symTable ents call)) ++ "]") ∧
    (((symTable ents call).take 3).map (fun c => basename c.file_path)).length ≤ 3 ∧
    (3 < (symTable ents call).length →
      ambiguousSources (symTable ents call) =
        ((symTable ents call).take 3).map (fun c => basename c.file_path) ++ ["..."]) ∧
    ((symTable ents call).length ≤ 3 →
      ambiguousSources (symTable ents call) =
        (symTable ents call).map (fun c => basename c.file_path)) := by
  refine ⟨?_, ?_, ?_, ?_⟩
  · rcases hst : symTable ents call with _ | ⟨a, _ | ⟨b, rest⟩⟩
    · rw [hst] at hlen; simp at hlen
    · rw [hst] at hlen; simp at hlen
    · have hfilter :
          (a :: b :: rest).filter (fun x => x.file_path == callerPath) = [] := by
        rw [List.filter_eq_nil_iff]
        intro x hx
        rw [hst] at hnosame
        simp [hnosame x hx]
      simp [resolveCallStep1, hIgn, hQual, hst, hfilter]
  · rw [List.length_map, List.length_take]
    exact min_le_left _ _
  · intro h3
    simp [ambiguousSources, h3]
  · intro h3
    have hnot : ¬ 3 < (symTable ents call).length := Nat.not_lt.mpr h3
    simp [ambiguousSources, hnot, List.take_of_length_le h3]

/-- Witness for C2: four same-named cross-file candidates give three listed
basenames plus the overflow marker; calling through the theorem also
discharges its hypotheses at this input. -/
theorem resolve_graph_ambiguous_bound_witness :
    resolveCallStep1 fixtureEnts4 "C:/p/z.rs" ".rs" "helper" =
      some ("helper [? " ++
        joinSep ", " (ambiguousSources (symTable fixtureEnts4 "helper")) ++ "]") ∧
    ambiguousSources (symTable fixtureEnts4 "helper") = ["a.rs", "b.rs", "c.rs", "..."] := by
  constructor
  · exact (resolve_graph_ambiguous_bound fixtureEnts4 "C:/p/z.rs" ".rs" "helper"
      (by decide) (by decide) (by decide) (by decide)).1
  · decide

/-- C7 counterexample: two enumerations of the same raw-call set (a genuine
Python `set`, whose iteration order is not fixed across runs) produce
resolved-call lists that differ in order, refuting "identical, including
their order". -/
theorem resolution_order_counterexample :
    List.Perm ["alpha", "beta"] ["beta", "alpha"] ∧
    resolvedCallsOf fixtureEnts2 "C:/p/c.rs" ".rs" ["alpha", "beta"] ≠
      resolvedCallsOf fixtureEnts2 "C:/p/c.rs" ".rs" ["beta", "alpha"] := by
  decide

/-- C7 amended: resolution is a pure function of the symbol table and the
enumeration of the raw-call set, and permuting that enumeration permutes the
resolved calls — so the resolved-call multiset is run-independent, but the
order follows the set's iteration order. -/
theorem resolution_determinism_up_to_permutation
    (ents : List CodeEntity) (callerPath ext : String)
    (raw1 raw2 : List String) (h : raw1.Perm raw2) :
    (resolvedCallsOf ents callerPath ext raw1).Perm
      (resolvedCallsOf ents callerPath ext raw2) :=
  h.filterMap _

/-- Witness for C7's amended theorem at a concrete permuted enumeration. -/
theorem resolution_determinism_up_to_permutation_witness :
    (resolvedCallsOf fixtureEnts2 "C:/p/c.rs" ".rs" ["alpha", "beta"]).Perm
      (resolvedCallsOf fixtureEnts2 "C:/p/c.rs" ".rs" ["beta", "alpha"]) :=
  resolution_determinism_up_to_permutation fixtureEnts2 "C:/p/c.rs" ".rs"
    ["alpha", "beta"] ["beta", "alpha"] (by decide)

/-- C10: a raw call is dropped by `is_call_ignored` exactly when it is an
exact member of HIDDEN_CALLS or some per-extension IGNORED_IMPORTS entry is
a substring of it; and an entry containing `(` can never be a substring of
a parenthesis-free (identifier-only) call name, so such entries filter
nothing. -/
theorem is_call_ignored_characterization :
    (∀ call ext, is_call_ignored call ext = true ↔
      (call ∈ HIDDEN_CALLS ∨ ∃ p ∈ ignoredImports ext, strContainsSub call p = true)) ∧
    (∀ pat hay, '(' ∈ pat.toList → (∀ c ∈ hay.toList, c ≠ '(') →
      strContainsSub hay pat = false) := by
  constructor
  · intro call ext
    by_cases hmem : call ∈ HIDDEN_CALLS
    · simp [is_call_ignored, hmem]
    · simp [is_call_ignored, hmem, List.any_eq_true]
  · intro pat hay hp hhay
    by_contra h
    rw [Bool.not_eq_false] at h
    have hinf := (strContainsSub_iff hay pat).mp h
    exact hhay '(' (hinf.subset hp) rfl

/-- Witness for C10: `Vec::new` is filtered as an exact HIDDEN_CALLS member,
while the `.py` entry `print(` is no substring of the extracted call name
`print` (so `print` is not filtered). -/
theorem is_call_ignored_characterization_witness :
    is_call_ignored "Vec::new" ".rs" = true ∧
    strContainsSub "print" "print(" = false ∧
    is_call_ignored "print" ".py" = false :=
  ⟨(is_call_ignored_characterization.1 "Vec::new" ".rs").mpr (Or.inl (by decide)),
   is_call_ignored_characterization.2 "print(" "print" (by decide) (by decide),
   by decide⟩

theorem findClosingBraceStep2Aux_cons (openC closeC : Char) (l : String)
    (ls : List String) (idx : Nat) (st : BraceScanState) :
    findClosingBraceStep2Aux openC closeC (l :: ls) idx st =
      if (scanCharsStep2 openC closeC st none l.toList).started = true ∧
          (scanCharsStep2 openC closeC st none l.toList).balance ≤ 0 then
        some idx
      else
        findClosingBraceStep2Aux openC closeC ls (idx + 1)
          (scanCharsStep2 openC closeC st none l.toList) := rfl

theorem findMatchingBraceAux_cons (openC closeC : Char) (l : String)
    (ls : List String) (idx : Nat) (st : BraceScanState) :
    findMatchingBraceAux openC closeC (l :: ls) idx st =
      if (scanCharsOld openC closeC st 0 l.toList).started = true ∧
          (scanCharsOld openC closeC st 0 l.toList).balance = 0 then
        some idx
      else
        findMatchingBraceAux openC closeC ls (idx + 1)
          (scanCharsOld openC closeC st 0 l.toList) := rfl

theorem step2AfterLines_take_succ_cons (openC closeC : Char) (st : BraceScanState)
    (l : String) (ls : List String) (n : Nat) :
    step2AfterLines openC closeC st ((l :: ls).take (n + 1)) =
      step2AfterLines openC closeC
        (scanCharsStep2 openC closeC st none l.toList) (ls.take n) := by
  simp [step2AfterLines, List.take_succ_cons]

theorem oldAfterLines_take_succ_cons (openC closeC : Char) (st : BraceScanState)
    (l : String) (ls : List String) (n : Nat) :
    oldAfterLines openC closeC st ((l :: ls).take (n + 1)) =
      oldAfterLines openC closeC
        (scanCharsOld openC closeC st 0 l.toList) (ls.take n) := by
  simp [oldAfterLines, List.take_succ_cons]

theorem findClosingBraceStep2Aux_first_hit (openC closeC : Char) :
    ∀ (ls : List String) (idx : Nat) (st : BraceScanState) (k : Nat),
      k < ls.length →
      ((step2AfterLines openC closeC st (ls.take (k + 1))).started = true ∧
        (step2AfterLines openC closeC st (ls.take (k + 1))).balance ≤ 0) →
      (∀ j < k,
        ¬ ((step2AfterLines openC closeC st (ls.take (j + 1))).started = true ∧
          (step2AfterLines openC closeC st (ls.take (j + 1))).balance ≤ 0)) →
      findClosingBraceStep2Aux openC closeC ls idx st = some (idx + k)
  | [], idx, st, k, hk, _, _ => absurd hk (by simp)
  | l :: ls, idx, st, 0, hk, hcond, hmin => by
    rw [step2AfterLines_take_succ_cons] at hcond
    have h0 : (scanCharsStep2 openC closeC st none l.toList).started = true ∧
        (scanCharsStep2 openC closeC st none l.toList).balance ≤ 0 := by
      simpa [step2AfterLines] using hcond
    rw [findClosingBraceStep2Aux_cons, if_pos h0, Nat.add_zero]
  | l :: ls, idx, st, k + 1, hk, hcond, hmin => by
    have h0 : ¬ ((scanCharsStep2 openC closeC st none l.toList).started = true ∧
        (scanCharsStep2 openC closeC st none l.toList).balance ≤ 0) := by
      have := hmin 0 (Nat.succ_pos k)
      rw [step2AfterLines_take_succ_cons] at this
      simpa [step2AfterLines] using this
    rw [step2AfterLines_take_succ_cons] at hcond
    have hrec := findClosingBraceStep2Aux_first_hit openC closeC ls (idx + 1)
      (scanCharsStep2 openC closeC st none l.toList) k
      (by simpa using Nat.lt_of_succ_lt_succ hk) hcond
      (by
        intro j hj
        have := hmin (j + 1) (Nat.succ_lt_succ hj)
        rw [step2AfterLines_take_succ_cons] at this
        exact this)
    rw [findClosingBraceStep2Aux_cons, if_neg h0, hrec]
    exact congrArg some (by omega)

theorem findClosingBraceStep2Aux_no_hit (openC closeC : Char) :
    ∀ (ls : List String) (idx : Nat) (st : BraceScanState),
      (∀ j < ls.length,
        ¬ ((step2AfterLines openC closeC st (ls.take (j + 1))).started = true ∧
          (step2AfterLines openC closeC st (ls.take (j + 1))).balance ≤ 0)) →
      findClosingBraceStep2Aux openC closeC ls idx st = none
  | [], idx, st, _ => rfl
  | l :: ls, idx, st, hall => by
    have h0 : ¬ ((scanCharsStep2 openC closeC st none l.toList).started = true ∧
        (scanCharsStep2 openC closeC st none l.toList).balance ≤ 0) := by
      have := hall 0 (Nat.succ_pos _)
      rw [step2AfterLines_take_succ_cons] at this
      simpa [step2AfterLines] using this
    have hrec := findClosingBraceStep2Aux_no_hit openC closeC ls (idx + 1)
      (scanCharsStep2 openC closeC st none l.toList)
      (by
        intro j hj
        have := hall (j + 1) (by simpa using Nat.succ_lt_succ hj)
        rw [step2AfterLines_take_succ_cons] at this
        exact this)
    rw [findClosingBraceStep2Aux_cons, if_neg h0]
    exact hrec

theorem findMatchingBraceAux_first_hit (openC closeC : Char) :
    ∀ (ls : List String) (idx : Nat) (st : BraceScanState) (k : Nat),
      k < ls.length →
      ((oldAfterLines openC closeC st (ls.take (k + 1))).started = true ∧
        (oldAfterLines openC closeC st (ls.take (k + 1))).balance = 0) →
      (∀ j < k,
        ¬ ((oldAfterLines openC closeC st (ls.take (j + 1))).started = true ∧
          (oldAfterLines openC closeC st (ls.take (j + 1))).balance = 0)) →
      findMatchingBraceAux openC closeC ls idx st = some (idx + k)
  | [], idx, st, k, hk, _, _ => absurd hk (by simp)
  | l :: ls, idx, st, 0, hk, hcond, hmin => by
    rw [oldAfterLines_take_succ_cons] at hcond
    have h0 : (scanCharsOld openC closeC st 0 l.toList).started = true ∧
        (scanCharsOld openC closeC st 0 l.toList).balance = 0 := by
      simpa [oldAfterLines] using hcond
    rw [findMatchingBraceAux_cons, if_pos h0, Nat.add_zero]
  | l :: ls, idx, st, k + 1, hk, hcond, hmin => by
    have h0 : ¬ ((scanCharsOld openC closeC st 0 l.toList).started = true ∧
        (scanCharsOld openC closeC st 0 l.toList).balance = 0) := by
      have := hmin 0 (Nat.succ_pos k)
      rw [oldAfterLines_take_succ_cons] at this
      simpa [oldAfterLines] using this
    rw [oldAfterLines_take_succ_cons] at hcond
    have hrec := findMatchingBraceAux_first_hit openC closeC ls (idx + 1)
      (scanCharsOld openC closeC st 0 l.toList) k
      (by simpa using Nat.lt_of_succ_lt_succ hk) hcond
      (by
        intro j hj
        have := hmin (j + 1) (Nat.succ_lt_succ hj)
        rw [oldAfterLines_take_succ_cons] at this
        exact this)
    rw [findMatchingBraceAux_cons, if_neg h0, hrec]
    exact congrArg some (by omega)

theorem findMatchingBraceAux_no_hit (openC closeC : Char) :
    ∀ (ls : List String) (idx : Nat) (st : BraceScanState),
      (∀ j < ls.length,
        ¬ ((oldAfterLines openC closeC st (ls.take (j + 1))).started = true ∧
          (oldAfterLines openC closeC st (ls.take (j + 1))).balance = 0)) →
      findMatchingBraceAux openC closeC ls idx st = none
  | [], idx, st, _ => rfl
  | l :: ls, idx, st, hall => by
    have h0 : ¬ ((scanCharsOld openC closeC st 0 l.toList).started = true ∧
        (scanCharsOld openC closeC st 0 l.toList).balance = 0) := by
      have := hall 0 (Nat.succ_pos _)
      rw [oldAfterLines_take_succ_cons] at this
      simpa [oldAfterLines] using this
    have hrec := findMatchingBraceAux_no_hit openC closeC ls (idx + 1)
      (scanCharsOld openC closeC st 0 l.toList)
      (by
        intro j hj
        have := hall (j + 1) (by simpa using Nat.succ_lt_succ hj)
        rw [oldAfterLines_take_succ_cons] at this
        exact this)
    rw [findMatchingBraceAux_cons, if_neg h0]
    exact hrec

/-- C3 counterexample: on a 3-line snippet whose braces are balanced under
the string-aware reading, with the only `}` of line 1 inside a string
literal, step 1's `find_closing_brace` stops at line 1 while the
string-tracking delimiters of step 2 and the old call graph return line 2,
the line holding the matching closing brace. -/
theorem find_block_end_string_literal_counterexample :
    findClosingBraceStep1 ["fn f() \x7b", "  let s = \"\x7d\";", "\x7d"] 0 = 1 ∧
    findClosingBraceStep2 ["fn f() \x7b", "  let s = \"\x7d\";", "\x7d"] 0 = 2 ∧
    findMatchingBrace ["fn f() \x7b", "  let s = \"\x7d\";", "\x7d"] 0 = 2 ∧
    (1 : Nat) ≠ 2 := by decide

/-- C3 amended: for the string-aware delimiters — step 2's
`find_closing_brace` and the old call graph's `find_matching_brace` — if the
character scan (which ignores braces inside string literals and after `//`)
first reaches its closing condition at the k-th scanned line, that line index
is returned; step 1's `find_closing_brace` counts braces inside string
literals and can stop earlier (see the counterexample). -/
theorem find_block_end_returns_matching_line (lines : List String) (start k : Nat)
    (hk : k < (lines.drop start).length)
    (h2c : (step2AfterLines '\x7b' '\x7d' {} ((lines.drop start).take (k + 1))).started = true ∧
      (step2AfterLines '\x7b' '\x7d' {} ((lines.drop start).take (k + 1))).balance ≤ 0)
    (h2min : ∀ j < k,
      ¬ ((step2AfterLines '\x7b' '\x7d' {} ((lines.drop start).take (j + 1))).started = true ∧
        (step2AfterLines '\x7b' '\x7d' {} ((lines.drop start).take (j + 1))).balance ≤ 0))
    (hoc : (oldAfterLines '\x7b' '\x7d' {} ((lines.drop start).take (k + 1))).started = true ∧
      (oldAfterLines '\x7b' '\x7d' {} ((lines.drop start).take (k + 1))).balance = 0)
    (homin : ∀ j < k,
      ¬ ((oldAfterLines '\x7b' '\x7d' {} ((lines.drop start).take (j + 1))).started = true ∧
        (oldAfterLines '\x7b' '\x7d' {} ((lines.drop start).take (j + 1))).balance = 0)) :
    findClosingBraceStep2 lines start = start + k ∧
    findMatchingBrace lines start = start + k := by
  constructor
  · unfold findClosingBraceStep2
    rw [findClosingBraceStep2Aux_first_hit '\x7b' '\x7d' (lines.drop start) start {} k
      hk h2c h2min]
  · unfold findMatchingBrace
    rw [findMatchingBraceAux_first_hit '\x7b' '\x7d' (lines.drop start) start {} k
      hk hoc homin]

/-- Witness for C3's amended theorem: a snippet with both brace characters
inside a string literal on the middle line; both string-aware delimiters
return the closing line 2. -/
theorem find_block_end_returns_matching_line_witness :
    findClosingBraceStep2 ["fn f() \x7b", "  let s = \"\x7d\x7b\";", "\x7d"] 0 = 2 ∧
    findMatchingBrace ["fn f() \x7b", "  let s = \"\x7d\x7b\";", "\x7d"] 0 = 2 := by
  have h := find_block_end_returns_matching_line
    ["fn f() \x7b", "  let s = \"\x7d\x7b\";", "\x7d"] 0 2
    (by decide) (by decide) (by decide) (by decide) (by decide)
  simpa using h

/-- C4 counterexample: on a one-line input that opens a block and never
closes it, step 1's `find_closing_brace` returns `len(lines)` = 1, which is
NOT an in-range line index (the last line of the input has index 0). -/
theorem find_block_end_fail_soft_counterexample :
    findClosingBraceStep1 ["fn main() \x7b"] 0 = 1 ∧
    ¬ (findClosingBraceStep1 ["fn main() \x7b"] 0 < List.length ["fn main() \x7b"]) := by
  decide

/-- C4 amended: when the scan never reaches the closing condition, step 2's
`find_closing_brace` and the old call graph's `find_matching_brace` return
`len(lines) - 1`, the index of the last line — an in-range index for
nonempty input — and, being total functions, never raise; step 1's
`find_closing_brace` instead returns `len(lines)`, one past the last line
(see the counterexample; it too never raises, and its callers only slice
with the result). -/
theorem find_block_end_fail_soft (lines : List String) (start : Nat)
    (hne : lines ≠ [])
    (h2 : ∀ j < (lines.drop start).length,
      ¬ ((step2AfterLines '\x7b' '\x7d' {} ((lines.drop start).take (j + 1))).started = true ∧
        (step2AfterLines '\x7b' '\x7d' {} ((lines.drop start).take (j + 1))).balance ≤ 0))
    (hO : ∀ j < (lines.drop start).length,
      ¬ ((oldAfterLines '\x7b' '\x7d' {} ((lines.drop start).take (j + 1))).started = true ∧
        (oldAfterLines '\x7b' '\x7d' {} ((lines.drop start).take (j + 1))).balance = 0)) :
    findClosingBraceStep2 lines start = lines.length - 1 ∧
    findMatchingBrace lines start = lines.length - 1 ∧
    lines.length - 1 < lines.length := by
  refine ⟨?_, ?_, ?_⟩
  · unfold findClosingBraceStep2
    rw [findClosingBraceStep2Aux_no_hit '\x7b' '\x7d' (lines.drop start) start {} h2]
  · unfold findMatchingBrace
    rw [findMatchingBraceAux_no_hit '\x7b' '\x7d' (lines.drop start) start {} hO]
  · have : 0 < lines.length := List.length_pos.mpr hne
    omega

/-- Witness for C4's amended theorem: the unclosed one-line block gives the
last line index 0, which is in range. -/
theorem find_block_end_fail_soft_witness :
    findClosingBraceStep2 ["fn main() \x7b"] 0 = 0 ∧
    findMatchingBrace ["fn main() \x7b"] 0 = 0 ∧
    (0 : Nat) < 1 := by
  have h := find_block_end_fail_soft ["fn main() \x7b"] 0
    (by decide) (by decide) (by decide)
  simpa using h

theorem pyScan_eq_findIdx (curInd : Nat) : ∀ (ls : List String) (j : Nat),
    pyScan curInd ls j =
      ls.findIdx? (fun l => !isBlankLine l && decide (indentOf l ≤ curInd)) j
  | [], j => rfl
  | l :: ls, j => by
    rw [List.findIdx?_cons]
    by_cases hb : isBlankLine l
    · simp [pyScan, hb, pyScan_eq_findIdx curInd ls (j + 1)]
    · by_cases hi : indentOf l ≤ curInd
      · simp [pyScan, hb, hi]
      · simp [pyScan, hb, hi, pyScan_eq_findIdx curInd ls (j + 1)]

/-- C5 counterexample: in `parse_python` a dedented comment-only line DOES
terminate the block (Scenario D fails there: the block ends before the
comment at index 3, not before the dedented statement at index 4); and in
the old `find_python_block_end` a line indented between the definition and
the first body line ends the block even though its indentation exceeds the
definition's. -/
theorem parse_python_dedented_comment_counterexample :
    parsePythonBlockEnd ["def f():", "    x = 1", "", "# comment", "print(2)"] 0 = 3 ∧
    specPyBlockEnd ["def f():", "    x = 1", "", "# comment", "print(2)"] 0 = 4 ∧
    isCommentLine (["def f():", "    x = 1", "", "# comment", "print(2)"].getD 3 "") = true ∧
    (3 : Nat) ≠ 4 ∧
    findPythonBlockEnd ["def f():", "        x = 1", "    y"] 0 = 1 ∧
    (1 : Nat) ≠ 2 := by decide

/-- C5 amended: in step 1's `parse_python` the computed block end is the
index of the first subsequent non-blank line — comment or not — whose
indentation is at most the definition line's (so the block is the lines
strictly before it), or the end of file when no such line exists; blank
lines never terminate the block.  Comment-only lines DO terminate it there;
only the old `find_python_block_end` skips comments (and it measures the
dedent against the first body line's indentation, not the definition's). -/
theorem parse_python_block_end_characterization (lines : List String) (i : Nat) :
    parsePythonBlockEnd lines i =
      ((lines.drop (i + 1)).findIdx?
        (fun l => !isBlankLine l && decide (indentOf l ≤ indentOf (lines.getD i "")))
        (i + 1)).getD lines.length := by
  unfold parsePythonBlockEnd
  rw [pyScan_eq_findIdx]
  cases h : (lines.drop (i + 1)).findIdx?
      (fun l => !isBlankLine l && decide (indentOf l ≤ indentOf (lines.getD i "")))
      (i + 1) <;>
    simp [h]

theorem findClosingBraceStep1Aux_cons (openC closeC : Char) (l : String)
    (ls : List String) (idx : Nat) (balance : Int) (started : Bool) :
    findClosingBraceStep1Aux openC closeC (l :: ls) idx balance started =
      (let l' := splitBefore (splitBefore l "//") "#"
       let balance' := balance + (charCount l' openC : Int) - (charCount l' closeC : Int)
       let started' := started || l'.toList.contains openC
       if started' = true ∧ balance' ≤ 0 then some idx
       else findClosingBraceStep1Aux openC closeC ls (idx + 1) balance' started') := rfl

theorem findClosingBraceStep1Aux_ge (openC closeC : Char) :
    ∀ (ls : List String) (idx : Nat) (balance : Int) (started : Bool) (r : Nat),
      findClosingBraceStep1Aux openC closeC ls idx balance started = some r → idx ≤ r
  | [], idx, balance, started, r, h => by simp [findClosingBraceStep1Aux] at h
  | l :: ls, idx, balance, started, r, h => by
    rw [findClosingBraceStep1Aux_cons] at h
    simp only at h
    split at h
    · exact (Option.some_inj.mp h) ▸ Nat.le_refl idx
    · exact Nat.le_of_succ_le (findClosingBraceStep1Aux_ge openC closeC ls (idx + 1) _ _ r h)

theorem findClosingBraceStep2Aux_ge (openC closeC : Char) :
    ∀ (ls : List String) (idx : Nat) (st : BraceScanState) (r : Nat),
      findClosingBraceStep2Aux openC closeC ls idx st = some r → idx ≤ r
  | [], idx, st, r, h => by simp [findClosingBraceStep2Aux] at h
  | l :: ls, idx, st, r, h => by
    rw [findClosingBraceStep2Aux_cons] at h
    split at h
    · exact (Option.some_inj.mp h) ▸ Nat.le_refl idx
    · exact Nat.le_of_succ_le (findClosingBraceStep2Aux_ge openC closeC ls (idx + 1) _ r h)

theorem findClosingBraceStep2_ge (lines : List String) (i : Nat)
    (h : i < lines.length) : i ≤ findClosingBraceStep2 lines i := by
  unfold findClosingBraceStep2
  cases hc : findClosingBraceStep2Aux '\x7b' '\x7d' (lines.drop i) i {} with
  | some r => exact findClosingBraceStep2Aux_ge '\x7b' '\x7d' (lines.drop i) i {} r hc
  | none =>
    show i ≤ lines.length - 1
    omega

/-- C6 amended: for every TypeScript function entity of step 2,
`line_end ≥ line_start`, the span `[line_start, line_end]` starts at the
entity's own declaration line, and the stored body is exactly the joined
source lines of that span; step 1's Rust function entities also satisfy
`line_end ≥ line_start`.  The spanned text need NOT have a balanced brace
count (the fail-soft path keeps an unclosed block, see the counterexample),
and for step 1's Rust entities the span can even extend one line past the
end of the file. -/
theorem entity_span_invariant (lines : List String) (lineIdx : Nat)
    (name sig filePath relPath : String) (h : lineIdx < lines.length) :
    (createFunctionEntityStep2 lines lineIdx name sig filePath relPath).line_start ≤
      (createFunctionEntityStep2 lines lineIdx name sig filePath relPath).line_end ∧
    (spanLines lines (createFunctionEntityStep2 lines lineIdx name sig filePath relPath)).head? =
      some (lines.getD lineIdx "") ∧
    (createFunctionEntityStep2 lines lineIdx name sig filePath relPath).body =
      joinSep "\n" (spanLines lines (createFunctionEntityStep2 lines lineIdx name sig filePath relPath)) ∧
    (parseRustFnEntity lines lineIdx name sig filePath relPath).line_start ≤
      (parseRustFnEntity lines lineIdx name sig filePath relPath).line_end := by
  have hge : lineIdx ≤ findClosingBraceStep2 lines lineIdx :=
    findClosingBraceStep2_ge lines lineIdx h
  have hspan : spanLines lines (createFunctionEntityStep2 lines lineIdx name sig filePath relPath) =
      (lines.drop lineIdx).take (findClosingBraceStep2 lines lineIdx + 1 - lineIdx) := by
    simp only [spanLines, createFunctionEntityStep2]
    congr 1
    omega
  refine ⟨?_, ?_, ?_, ?_⟩
  · simp only [createFunctionEntityStep2]
    omega
  · rw [hspan]
    have hdrop : lines.drop lineIdx = lines[lineIdx] :: lines.drop (lineIdx + 1) :=
      List.drop_eq_getElem_cons h
    have hpos : 0 < findClosingBraceStep2 lines lineIdx + 1 - lineIdx := by omega
    obtain ⟨n, hn⟩ := Nat.exists_eq_succ_of_ne_zero (Nat.pos_iff_ne_zero.mp hpos)
    rw [hdrop, hn, List.take_succ_cons, List.head?_cons, List.getD_eq_getElem lines "" h]
  · rw [hspan]
    rfl
  · have hge1 : lineIdx ≤ findClosingBraceStep1 lines lineIdx := by
      unfold findClosingBraceStep1
      cases hc : findClosingBraceStep1Aux '\x7b' '\x7d' (lines.drop lineIdx) lineIdx 0 false with
      | some r => exact findClosingBraceStep1Aux_ge '\x7b' '\x7d' (lines.drop lineIdx) lineIdx 0 false r hc
      | none =>
        show lineIdx ≤ lines.length
        omega
    simp only [parseRustFnEntity]
    omega

/-- Witness for C6's amended theorem on a concrete two-line function. -/
theorem entity_span_invariant_witness :
    (createFunctionEntityStep2 ["fn f() \x7b", "\x7d"] 0 "f" "fn f()" "m.rs" "m.rs").line_start ≤
      (createFunctionEntityStep2 ["fn f() \x7b", "\x7d"] 0 "f" "fn f()" "m.rs" "m.rs").line_end ∧
    (spanLines ["fn f() \x7b", "\x7d"] (createFunctionEntityStep2 ["fn f() \x7b", "\x7d"] 0 "f" "fn f()" "m.rs" "m.rs")).head? =
      some (["fn f() \x7b", "\x7d"].getD 0 "") ∧
    (createFunctionEntityStep2 ["fn f() \x7b", "\x7d"] 0 "f" "fn f()" "m.rs" "m.rs").body =
      joinSep "\n" (spanLines ["fn f() \x7b", "\x7d"] (createFunctionEntityStep2 ["fn f() \x7b", "\x7d"] 0 "f" "fn f()" "m.rs" "m.rs")) ∧
    (parseRustFnEntity ["fn f() \x7b", "\x7d"] 0 "f" "fn f()" "m.rs" "m.rs").line_start ≤
      (parseRustFnEntity ["fn f() \x7b", "\x7d"] 0 "f" "fn f()" "m.rs" "m.rs").line_end :=
  entity_span_invariant ["fn f() \x7b", "\x7d"] 0 "f" "fn f()" "m.rs" "m.rs" (by decide)

/-- C6 counterexample: a function whose block never closes yields a step-2
entity whose spanned body has one opening and no closing brace (no balanced
brace count), and a step-1 Rust entity whose `line_end` is 2 on a one-line
file — the span is not even within the source. -/
theorem entity_span_balanced_counterexample :
    (createFunctionEntityStep2 ["function f() \x7b"] 0 "f" "function f()" "a.ts" "a.ts").body =
      "function f() \x7b" ∧
    charCount (createFunctionEntityStep2 ["function f() \x7b"] 0 "f" "function f()" "a.ts" "a.ts").body '\x7b' = 1 ∧
    charCount (createFunctionEntityStep2 ["function f() \x7b"] 0 "f" "function f()" "a.ts" "a.ts").body '\x7d' = 0 ∧
    (parseRustFnEntity ["fn main() \x7b"] 0 "main" "fn main()" "m.rs" "m.rs").line_end = 2 ∧
    List.length ["fn main() \x7b"] = 1 := by decide

theorem buildTriggers_foldl_nodup :
    ∀ (acts : List String) (acc : List String), acc.Nodup →
      (acts.foldl (fun acc a =>
        let t := "dispatch(" ++ a ++ ")"
        if t ∈ acc then acc else acc ++ [t]) acc).Nodup
  | [], acc, hacc => hacc
  | a :: acts, acc, hacc => by
    simp only [List.foldl_cons]
    by_cases hmem : ("dispatch(" ++ a ++ ")") ∈ acc
    · simpa [hmem] using buildTriggers_foldl_nodup acts acc hacc
    · have hstep : (acc ++ ["dispatch(" ++ a ++ ")"]).Nodup :=
        List.Nodup.append hacc (List.nodup_singleton _)
          (by simpa [List.disjoint_singleton] using hmem)
      simpa [hmem] using buildTriggers_foldl_nodup acts _ hstep

theorem buildTriggers_nodup (acts : List String) : (buildTriggers acts).Nodup :=
  buildTriggers_foldl_nodup acts [] List.nodup_nil

/-- C8 counterexample: the destructuring pass of `_analyze_hooks_used`
appends without deduplication, so a body with two `const x = useAlpha(...)`
bindings yields `hooks_used = [useAlpha, useAlpha]`; with a single trigger
the entity IS classified as an integration layer, although it uses only 1
distinct custom hook and has only 1 trigger — neither clause of the claim. -/
theorem integration_layer_counterexample :
    hooksUsedOf "GridComponent" ["useAlpha", "useAlpha"] ["useAlpha"] =
      ["useAlpha", "useAlpha"] ∧
    buildTriggers ["setX"] = ["dispatch(setX)"] ∧
    isIntegrationLayer ["useAlpha", "useAlpha"] ["dispatch(setX)"] = true ∧
    (["useAlpha", "useAlpha"].filter (fun h => h ∉ STANDARD_REACT_HOOKS)).dedup.length = 1 ∧
    List.length ["dispatch(setX)"] = 1 := by decide

/-- C8 amended: the classification is: at least 2 custom-hook USAGE ENTRIES
(the `hooks_used` list filtered of standard React hooks, counted with
multiplicity — the destructuring pass appends duplicates) together with at
least 1 trigger, or at least 1 such entry together with at least 2 triggers;
the trigger list itself is duplicate-free, so its length does count distinct
triggers. -/
theorem integration_layer_characterization (hooks_used actionNames : List String) :
    (isIntegrationLayer hooks_used (buildTriggers actionNames) = true ↔
      (2 ≤ (hooks_used.filter (fun h => h ∉ STANDARD_REACT_HOOKS)).length ∧
        buildTriggers actionNames ≠ []) ∨
      (1 ≤ (hooks_used.filter (fun h => h ∉ STANDARD_REACT_HOOKS)).length ∧
        2 ≤ (buildTriggers actionNames).length)) ∧
    (buildTriggers actionNames).Nodup := by
  constructor
  · unfold isIntegrationLayer
    dsimp only
    split_ifs with h1 h2
    · exact iff_of_true rfl (Or.inl h1)
    · exact iff_of_true rfl (Or.inr h2)
    · exact iff_of_false (by simp) (by tauto)
  · exact buildTriggers_nodup actionNames

theorem renderHookTree_succ (hooks : List (String × List String)) (fuel : Nat)
    (hookName : String) (indent : Nat) (visited : List String) :
    renderHookTree hooks (fuel + 1) hookName indent visited =
      (if hookName ∈ visited then
        [indentPrefix indent ++ "  (circular: " ++ hookName ++ ")"]
      else
        match hooks.lookup hookName with
        | none => []
        | some deps =>
          (indentPrefix indent ++ hookName ++
            (if deps ≠ [] then " -> " ++ joinSep ", " deps else "")) ::
            (deps.filter
              (fun d => (hooks.lookup d).isSome &&
                !((hookName :: visited).contains d))).flatMap
              (fun d => renderHookTree hooks fuel d (indent + 1) (hookName :: visited))) :=
  rfl

theorem renderHookTree_succ_some (hooks : List (String × List String)) (fuel : Nat)
    (hookName : String) (indent : Nat) (visited : List String) (deps : List String)
    (hv : hookName ∉ visited) (hl : hooks.lookup hookName = some deps) :
    renderHookTree hooks (fuel + 1) hookName indent visited =
      (indentPrefix indent ++ hookName ++
        (if deps ≠ [] then " -> " ++ joinSep ", " deps else "")) ::
        (deps.filter
          (fun d => (hooks.lookup d).isSome &&
            !((hookName :: visited).contains d))).flatMap
          (fun d => renderHookTree hooks fuel d (indent + 1) (hookName :: visited)) := by
  rw [renderHookTree_succ, if_neg hv, hl]

theorem mem_of_lookup_eq_some {hooks : List (String × List String)} {name : String}
    {deps : List String} (h : hooks.lookup name = some deps) : (name, deps) ∈ hooks := by
  obtain ⟨l₁, l₂, hsplit, -⟩ := List.lookup_eq_some_iff.mp h
  rw [hsplit]
  simp

theorem mem_keys_of_lookup {hooks : List (String × List String)} {name : String}
    {deps : List String} (h : hooks.lookup name = some deps) :
    name ∈ hooks.map Prod.fst :=
  List.mem_map.mpr ⟨(name, deps), mem_of_lookup_eq_some h, rfl⟩

theorem hookMeasure_cons_lt (hooks : List (String × List String)) (name : String)
    (visited : List String) (hkey : name ∈ hooks.map Prod.fst) (hv : name ∉ visited) :
    hookMeasure hooks (name :: visited) < hookMeasure hooks visited := by
  unfold hookMeasure
  obtain ⟨s, t, hst⟩ := List.append_of_mem hkey
  rw [hst, List.filter_append, List.filter_append, List.filter_cons, List.filter_cons]
  have hp : (!((name :: visited).contains name)) = false := by simp
  have hq : (!(visited.contains name)) = true := by simpa using hv
  rw [hp, hq]
  simp only [if_true, if_false, Bool.false_eq_true]
  have himp : ∀ a : String, (!((name :: visited).contains a)) = true →
      (!(visited.contains a)) = true := by
    intro a ha
    simp only [Bool.not_eq_true', List.contains_eq_any_beq, List.any_eq_false] at ha ⊢
    intro x hx
    exact ha x (List.mem_cons_of_mem name hx)
  have h1 : (s.filter (fun k => !((name :: visited).contains k))).length ≤
      (s.filter (fun k => !(visited.contains k))).length :=
    (List.monotone_filter_right s himp).length_le
  have h2 : (t.filter (fun k => !((name :: visited).contains k))).length ≤
      (t.filter (fun k => !(visited.contains k))).length :=
    (List.monotone_filter_right t himp).length_le
  simp only [List.length_append, List.length_cons]
  omega

theorem renderHookTree_fuel_stable (hooks : List (String × List String)) :
    ∀ (m : Nat) (visited : List String) (name : String) (indent : Nat) (f₁ f₂ : Nat),
      hookMeasure hooks visited ≤ m → m < f₁ → m < f₂ →
      renderHookTree hooks f₁ name indent visited =
        renderHookTree hooks f₂ name indent visited := by
  intro m
  induction m with
  | zero =>
    intro visited name indent f₁ f₂ hm h1 h2
    obtain ⟨a, rfl⟩ : ∃ a, f₁ = a + 1 := ⟨f₁ - 1, by omega⟩
    obtain ⟨b, rfl⟩ : ∃ b, f₂ = b + 1 := ⟨f₂ - 1, by omega⟩
    rw [renderHookTree_succ, renderHookTree_succ]
    by_cases hv : name ∈ visited
    · rw [if_pos hv, if_pos hv]
    · rw [if_neg hv, if_neg hv]
      cases hl : hooks.lookup name with
      | none => rfl
      | some deps =>
        exfalso
        have hmem : name ∈ (hooks.map Prod.fst).filter (fun k => !(visited.contains k)) :=
          List.mem_filter.mpr ⟨mem_keys_of_lookup hl, by simpa using hv⟩
        have : 0 < hookMeasure hooks visited :=
          List.length_pos.mpr (List.ne_nil_of_mem hmem)
        omega
  | succ m ih =>
    intro visited name indent f₁ f₂ hm h1 h2
    obtain ⟨a, rfl⟩ : ∃ a, f₁ = a + 1 := ⟨f₁ - 1, by omega⟩
    obtain ⟨b, rfl⟩ : ∃ b, f₂ = b + 1 := ⟨f₂ - 1, by omega⟩
    by_cases hv : name ∈ visited
    · rw [renderHookTree_succ, renderHookTree_succ, if_pos hv, if_pos hv]
    · cases hl : hooks.lookup name with
      | none => rw [renderHookTree_succ, renderHookTree_succ, if_neg hv, if_neg hv, hl]
      | some deps =>
        have hlt : hookMeasure hooks (name :: visited) < hookMeasure hooks visited :=
          hookMeasure_cons_lt hooks name visited (mem_keys_of_lookup hl) hv
        rw [renderHookTree_succ_some hooks a name indent visited deps hv hl,
          renderHookTree_succ_some hooks b name indent visited deps hv hl]
        congr 1
        apply List.flatMap_congr
        intro d hd
        exact ih (name :: visited) d (indent + 1) a b (by omega) (by omega) (by omega)

theorem parenFree_append {s t : String} (hs : parenFree s) (ht : parenFree t) :
    parenFree (s ++ t) := by
  intro c hc
  rw [String.toList, String.data_append, List.mem_append] at hc
  cases hc with
  | inl h => exact hs c h
  | inr h => exact ht c h

theorem parenFree_indentPrefix (n : Nat) : parenFree (indentPrefix n) := by
  intro c hc
  rw [indentPrefix, String.toList] at hc
  have := List.eq_of_mem_replicate hc
  subst this
  decide

theorem parenFree_joinSep (sep : String) (hsep : parenFree sep) :
    ∀ (l : List String), (∀ x ∈ l, parenFree x) → parenFree (joinSep sep l)
  | [], _ => by intro c hc; simp [joinSep, String.toList] at hc
  | [x], h => by simpa [joinSep] using h x (by simp)
  | x :: y :: xs, h => by
    have hj : joinSep sep (x :: y :: xs) = x ++ sep ++ joinSep sep (y :: xs) := rfl
    rw [hj]
    exact parenFree_append (parenFree_append (h x (by simp)) hsep)
      (parenFree_joinSep sep hsep (y :: xs) (fun z hz => h z (List.mem_cons_of_mem x hz)))

theorem renderHookTree_paren_free (hooks : List (String × List String))
    (hgood : parenFreeTable hooks) :
    ∀ (fuel : Nat) (name : String) (indent : Nat) (visited : List String),
      parenFree name → name ∉ visited →
      ∀ l ∈ renderHookTree hooks fuel name indent visited, parenFree l
  | 0, name, indent, visited, _, _ => by
    intro l hl
    simp [renderHookTree] at hl
  | fuel + 1, name, indent, visited, hname, hv => by
    intro l hl
    rw [renderHookTree_succ, if_neg hv] at hl
    cases hlk : hooks.lookup name with
    | none =>
      rw [hlk] at hl
      simp at hl
    | some deps =>
      rw [hlk] at hl
      have hdeps : ∀ d ∈ deps, parenFree d :=
        fun d hd => (hgood _ (mem_of_lookup_eq_some hlk)).2 d hd
      rcases List.mem_cons.mp hl with hHead | hTail
      · subst hHead
        refine parenFree_append (parenFree_append (parenFree_indentPrefix indent) hname) ?_
        by_cases hne : deps ≠ []
        · rw [if_pos hne]
          refine parenFree_append ?_ (parenFree_joinSep ", " (by decide) deps hdeps)
          decide
        · rw [if_neg hne]
          intro c hc
          simp [String.toList] at hc
      · obtain ⟨d, hdmem, hdl⟩ := List.mem_flatMap.mp hTail
        have hdfilter := List.mem_filter.mp hdmem
        have hdnot : d ∉ name :: visited := by
          have := hdfilter.2
          simp only [Bool.and_eq_true, Bool.not_eq_true'] at this
          simpa using this.2
        exact renderHookTree_paren_free hooks hgood fuel d (indent + 1) (name :: visited)
          (hdeps d hdfilter.1) hdnot l hdl

/-- C9 counterexample: on the cyclic hook table `useA -> useB -> useA`, the
rendering started from the roots (empty path) emits NO `(circular: ...)`
line at all — the dependency already on the path is silently skipped before
descending, because `render_hook_tree` only recurses into deps with
`dep not in visited`, so its circular branch is unreachable from an empty
initial path. -/
theorem render_hook_tree_counterexample :
    renderHookTree [("useA", ["useB"]), ("useB", ["useA"])] 10 "useA" 0 [] =
      ["useA -> useB", "  useB -> useA"] ∧
    (∀ l ∈ renderHookTree [("useA", ["useB"]), ("useB", ["useA"])] 10 "useA" 0 [],
      strContainsSub l "(circular" = false) := by
  decide

/-- C9 amended: the traversal terminates on every hook graph, cyclic ones
included — any fuel beyond the number of unvisited hooks yields the same
output; and a dependency already on the current path stops descent WITHOUT
emitting a `(circular: name)` line: starting outside the path, every output
line is parenthesis-free (hook names, matched by `use[A-Z][a-zA-Z0-9]*`,
contain no parenthesis), so the marker — which contains `(` — never occurs.
The circular branch is reachable only when the function is called with the
hook already in `visited`, which the traversal never does. -/
theorem render_hook_tree_terminates_no_circular :
    (∀ (hooks : List (String × List String)) (visited : List String) (name : String)
        (indent : Nat) (f₁ f₂ : Nat),
      hookMeasure hooks visited < f₁ → hookMeasure hooks visited < f₂ →
      renderHookTree hooks f₁ name indent visited =
        renderHookTree hooks f₂ name indent visited) ∧
    (∀ (hooks : List (String × List String)), parenFreeTable hooks →
      ∀ (fuel : Nat) (name : String) (indent : Nat) (visited : List String),
        parenFree name → name ∉ visited →
        ∀ l ∈ renderHookTree hooks fuel name indent visited, parenFree l) :=
  ⟨fun hooks visited name indent f₁ f₂ h1 h2 =>
    renderHookTree_fuel_stable hooks (hookMeasure hooks visited) visited name indent f₁ f₂
      (Nat.le_refl _) h1 h2,
   fun hooks hgood fuel name indent visited hname hv =>
    renderHookTree_paren_free hooks hgood fuel name indent visited hname hv⟩

/-- Witness for C9's amended theorem on the concrete cyclic table. -/
theorem render_hook_tree_terminates_no_circular_witness :
    renderHookTree [("useA", ["useB"]), ("useB", ["useA"])] 3 "useA" 0 [] =
      renderHookTree [("useA", ["useB"]), ("useB", ["useA"])] 50 "useA" 0 [] ∧
    (∀ l ∈ renderHookTree [("useA", ["useB"]), ("useB", ["useA"])] 3 "useA" 0 [],
      parenFree l) :=
  ⟨render_hook_tree_terminates_no_circular.1
      [("useA", ["useB"]), ("useB", ["useA"])] [] "useA" 0 3 50 (by decide) (by decide),
   render_hook_tree_terminates_no_circular.2
      [("useA", ["useB"]), ("useB", ["useA"])] (by decide) 3 "useA" 0 [] (by decide)
      (by decide)⟩
